import Mathlib

/-!
Verification of the calendar guest-synchronisation script
(`scripts/calendar_automation.py`): a shallow embedding of its event
classification, attendee reconciliation and update logic, together with
theorems about the behaviour of a run.

Strings are modelled as Lean `String`s; Python's `s.lower()` becomes
`lowerS`, and Python's substring test `tok in s` becomes `containsTok s tok`.
Missing JSON fields are modelled as `Option` values (`none` = key absent),
matching the script's `event.get(key, default)` accesses.
-/

/-- `listStartsWith l t` is true when `t` is an initial segment of `l`. -/
def listStartsWith : List Char → List Char → Bool
  | _, [] => true
  | [], _ :: _ => false
  | a :: as, b :: bs => a == b && listStartsWith as bs

/-- Substring occurrence on character lists: Python's `tok in hay`.
The empty token occurs in every string, as in Python. -/
def containsSub : List Char → List Char → Bool
  | hay, tok =>
    if listStartsWith hay tok then true
    else
      match hay with
      | [] => false
      | _ :: t => containsSub t tok

/-- Python's `tok in hay` on strings. -/
def containsTok (hay tok : String) : Bool :=
  containsSub hay.toList tok.toList

/-- Python's `str.lower()` (ASCII case folding). -/
def lowerS (s : String) : String :=
  ⟨s.data.map Char.toLower⟩

/-- One entry of an event's `attendees` list: `{"email": ..., "responseStatus": ...}`. -/
structure Attendee where
  email : String
  responseStatus : String
deriving Repr, DecidableEq

/-- A fetched calendar event record.  `none` models an absent JSON key;
`organizerEmail` is `event["organizer"]["email"]`, `sourceTitle` is
`event["source"]["title"]`, `startTime`/`endTime` the `start`/`end` payloads. -/
structure Event where
  id : String
  summary : Option String := none
  description : Option String := none
  location : Option String := none
  organizerEmail : Option String := none
  sourceTitle : Option String := none
  startTime : Option String := none
  endTime : Option String := none
  attendees : Option (List Attendee) := none
deriving Repr, DecidableEq

/-- The body of an `events().patch(...)` call: each field is `some v` when
the corresponding key is present in the submitted partial-update dict. -/
structure PatchPayload where
  summary : Option String := none
  description : Option String := none
  location : Option String := none
  organizerEmail : Option String := none
  sourceTitle : Option String := none
  startTime : Option String := none
  endTime : Option String := none
  attendees : Option (List Attendee) := none
deriving Repr, DecidableEq

/-- One issued `events().patch` call: target event, the email being added,
the submitted body, and whether the remote call succeeded. -/
structure Patch where
  eventId : String
  email : String
  payload : PatchPayload
  success : Bool
deriving Repr, DecidableEq

/-- The remote calendar service's success oracle for patch calls, indexed by
event id and email.  `okAll` models a run in which every patch succeeds. -/
def okAll : String → String → Bool := fun _ _ => true

/-- `CalendarAutomation.is_calendly_event`: buffer exclusion on the summary,
then any of the Calendly indicators over the lower-cased fields. -/
def is_calendly_event (e : Event) : Bool :=
  let summary := lowerS (e.summary.getD "")
  let description := lowerS (e.description.getD "")
  let location := lowerS (e.location.getD "")
  if containsTok summary "buffer" then false
  else
    let indicators : List Bool :=
      [containsTok description "calendly.com",
       containsTok location "calendly.com",
       containsTok summary "calendly",
       containsTok description "calendly"]
    let organizer_email := e.organizerEmail.getD ""
    let indicators :=
      if containsTok (lowerS organizer_email) "calendly" then indicators ++ [true]
      else indicators
    let sourceTitle := e.sourceTitle.getD ""
    let indicators :=
      if containsTok (lowerS sourceTitle) "calendly" then indicators ++ [true]
      else indicators
    indicators.any (fun b => b)

/-- `CalendarAutomation.has_email_as_guest`: case-insensitive membership of
`email` among the event's attendee emails. -/
def has_email_as_guest (e : Event) (email : String) : Bool :=
  (e.attendees.getD []).any (fun a => lowerS a.email == lowerS email)

/-- The in-memory effect of `add_email_as_guest` on its event argument:
`attendees = event.get("attendees", [])` aliases the event's own list when
the key is present, so the subsequent `attendees.append(...)` mutates the
event record; when the key is absent the append hits a fresh list and the
record is unchanged. -/
def inMemAdd (email : String) (e : Event) : Event :=
  match e.attendees with
  | some l => { e with attendees := some (l ++ [⟨email, "accepted"⟩]) }
  | none => e

/-- The patch call issued by `add_email_as_guest`: the body is
`{"attendees": attendees}` where `attendees` is the (possibly defaulted)
current list with the new entry appended; `ok` decides whether the remote
call raises `HttpError`. -/
def mkPatch (ok : String → String → Bool) (e : Event) (email : String) : Patch :=
  { eventId := e.id
    email := email
    payload := { attendees := some (e.attendees.getD [] ++ [⟨email, "accepted"⟩]) }
    success := ok e.id email }

/-- `CalendarAutomation.add_email_as_guest`: appends the new attendee entry
(with `responseStatus = "accepted"`) to the event's current attendee list,
issues the patch, and returns the mutated in-memory record together with the
issued patch.  The Python return value (`True`/`False`) is `(·.2).success`. -/
def add_email_as_guest (ok : String → String → Bool) (e : Event) (email : String) :
    Event × Patch :=
  (inMemAdd email e, mkPatch ok e email)

/-- The AttendeeReconciler of the spec, as realised by the pre-check loop of
`process_calendly_events`: the targets of `T`, in order, that
`has_email_as_guest` does not already find on the event. -/
def missingTargets (e : Event) (targets : List String) : List String :=
  targets.filter (fun t => !(has_email_as_guest e t))

/-- Indices (in iteration order) of the fetched events satisfying `p`:
the lists `events_to_update_secondary` / `events_to_update_tertiary` hold
references to the fetched event dicts, modelled here positionally. -/
def idxWhere (p : Event → Bool) (events : List Event) : List Nat :=
  (List.range events.length).filter
    (fun i => match events[i]? with
      | some e => p e
      | none => false)

/-- Result of one update loop: the event store after the in-place mutations,
the patch calls issued in order, and the number of successful patches. -/
structure PassResult where
  state : List Event
  patches : List Patch
  nSuccess : Nat
deriving Repr, DecidableEq

/-- One `for event in events_to_update_*:` loop of `process_calendly_events`,
over the indices of the events to update: each step calls
`add_email_as_guest`, mutating the shared store at that index. -/
def updatePass (ok : String → String → Bool) (email : String) :
    List Event → List Nat → PassResult
  | st, [] => ⟨st, [], 0⟩
  | st, i :: is =>
    match st[i]? with
    | none => updatePass ok email st is
    | some e =>
      let ep := add_email_as_guest ok e email
      let r := updatePass ok email (st.set i ep.1) is
      ⟨r.state, ep.2 :: r.patches, (if ep.2.success then 1 else 0) + r.nSuccess⟩

/-- Observable outcome of `process_calendly_events`: all patch calls in
order, the final in-memory event store, the number of events classified as
Calendly, and the two success counters printed in the summary. -/
structure RunResult where
  patches : List Patch
  finalEvents : List Event
  numCalendly : Nat
  nSecondary : Nat
  nTertiary : Nat
deriving Repr, DecidableEq

/-- The `events_to_update_*` list built by the pre-check loop of
`process_calendly_events`, positionally: indices of fetched events that are
Calendly and do not yet have `email` as a guest (judged on fetch-time
attendee lists). -/
def toUpdateIdx (events : List Event) (email : String) : List Nat :=
  idxWhere (fun e => is_calendly_event e && !(has_email_as_guest e email)) events

/-- `CalendarAutomation.process_calendly_events` on an already-fetched event
list: early return on an empty fetch; one pass over the events recording
which are Calendly and which lack each target email (membership judged
against fetch-time attendee lists); then the secondary update loop followed
by the tertiary update loop over the shared mutable records. -/
def process_calendly_events (ok : String → String → Bool) (events : List Event)
    (secondary tertiary : String) : RunResult :=
  if events.isEmpty then ⟨[], events, 0, 0, 0⟩
  else
    let r1 := updatePass ok secondary events (toUpdateIdx events secondary)
    let r2 := updatePass ok tertiary r1.state (toUpdateIdx events tertiary)
    ⟨r1.patches ++ r2.patches, r2.state,
      (events.filter is_calendly_event).length, r1.nSuccess, r2.nSuccess⟩

/-- `CalendarAutomation.get_recent_events`: the remote listing either
returns the event items or raises `HttpError`, in which case the method
prints the error and returns `[]`. -/
def get_recent_events (fetch : Except String (List Event)) : List Event :=
  match fetch with
  | Except.ok evs => evs
  | Except.error _ => []

/-- Remote calls issued by a run, in order. -/
inductive Op where
  | getCredentials
  | buildService
  | listCalendars
  | listEvents
  | patchCall (eventId email : String)
deriving Repr, DecidableEq

/-- Observable outcome of one process execution of the script. -/
structure ScriptRun where
  trace : List Op
  exitCode : Nat
  result : RunResult
deriving Repr, DecidableEq

/-- The empty run result (no patches, no events). -/
def emptyRun : RunResult := ⟨[], [], 0, 0, 0⟩

/-- `main`: `CalendarAutomation.__init__` reads the three environment
variables (the tertiary one defaulting), acquires credentials and builds the
service, and only then validates `PRIMARY_EMAIL` and `SECONDARY_EMAIL`
(Python's falsiness: unset or empty), raising `ValueError` — caught in
`main` as a configuration error with exit code 1 — before `_list_calendars`
runs; otherwise the run proceeds to fetch and process events and exits 0. -/
def runScript (primary secondary tertiary : Option String)
    (ok : String → String → Bool) (fetch : Except String (List Event)) : ScriptRun :=
  let initOps := [Op.getCredentials, Op.buildService]
  if (primary.getD "") = "" then ⟨initOps, 1, emptyRun⟩
  else if (secondary.getD "") = "" then ⟨initOps, 1, emptyRun⟩
  else
    let events := get_recent_events fetch
    let r := process_calendly_events ok events (secondary.getD "")
      (tertiary.getD "eric.ma@modernatx.com")
    ⟨initOps ++ [Op.listCalendars, Op.listEvents] ++
        r.patches.map (fun p => Op.patchCall p.eventId p.email),
      0, r⟩

/-- Field-wise semantics of a Google Calendar partial update: keys present
in the payload replace the event's value, absent keys leave it unchanged. -/
def ovr {α : Type} (new old : Option α) : Option α :=
  match new with
  | some v => some v
  | none => old

/-- Apply a patch body to a remote event record. -/
def applyPatch (e : Event) (p : PatchPayload) : Event :=
  { id := e.id
    summary := ovr p.summary e.summary
    description := ovr p.description e.description
    location := ovr p.location e.location
    organizerEmail := ovr p.organizerEmail e.organizerEmail
    sourceTitle := ovr p.sourceTitle e.sourceTitle
    startTime := ovr p.startTime e.startTime
    endTime := ovr p.endTime e.endTime
    attendees := ovr p.attendees e.attendees }

/-- The remote service's record for event `e` after a run: every successful
patch addressed to its id, applied in order. -/
def remoteAfter (e : Event) (patches : List Patch) : Event :=
  (patches.filter (fun p => p.eventId == e.id && p.success)).foldl
    (fun acc p => applyPatch acc p.payload) e

/-- A patch call without its success flag: what was attempted and submitted. -/
def dropSuccess (p : Patch) : String × String × PatchPayload :=
  (p.eventId, p.email, p.payload)

/-- Fixture: a Calendly-classified event whose `attendees` key is absent. -/
def evNoAtt : Event := { id := "e1", summary := some "calendly chat" }

/-- Fixture: a Calendly-classified event with one fetched attendee. -/
def evWithAtt : Event :=
  { id := "e2", summary := some "calendly chat",
    attendees := some [⟨"z@q.com", "needsAction"⟩] }

/-- An oracle under which every patch call fails. -/
def okNone : String → String → Bool := fun _ _ => false

/-- C1. The classifier returns true exactly when the summary lacks the
token "buffer" and at least one Calendly indicator (domain token in
description or location; name token in summary, description, organizer
email or source title) holds case-insensitively, absent fields reading
as the empty string. -/
theorem is_calendly_event_iff (e : Event) :
    is_calendly_event e = true ↔
      containsTok (lowerS (e.summary.getD "")) "buffer" = false ∧
        (containsTok (lowerS (e.description.getD "")) "calendly.com" = true ∨
         containsTok (lowerS (e.location.getD "")) "calendly.com" = true ∨
         containsTok (lowerS (e.summary.getD "")) "calendly" = true ∨
         containsTok (lowerS (e.description.getD "")) "calendly" = true ∨
         containsTok (lowerS (e.organizerEmail.getD "")) "calendly" = true ∨
         containsTok (lowerS (e.sourceTitle.getD "")) "calendly" = true) := by
  unfold is_calendly_event
  cases hb : containsTok (lowerS (e.summary.getD "")) "buffer" with
  | true => simp [hb]
  | false =>
    simp only [hb, if_false, Bool.false_eq_true]
    cases ho : containsTok (lowerS (e.organizerEmail.getD "")) "calendly" <;>
      cases hs : containsTok (lowerS (e.sourceTitle.getD "")) "calendly" <;>
        simp [ho, hs, List.any_eq_true, or_comm, or_left_comm, or_assoc]

/-- C1 witness: the spec's scenario "Coffee chat" with a Calendly link in the
description is classified true. -/
theorem is_calendly_event_iff_witness :
    is_calendly_event
        { id := "e1", summary := some "Coffee chat",
          description := some "Book time: https://provider.calendly.com/x" } = true ↔
      containsTok (lowerS ((some "Coffee chat").getD "")) "buffer" = false ∧
        (containsTok (lowerS ((some "Book time: https://provider.calendly.com/x").getD "")) "calendly.com" = true ∨
         containsTok (lowerS ((none : Option String).getD "")) "calendly.com" = true ∨
         containsTok (lowerS ((some "Coffee chat").getD "")) "calendly" = true ∨
         containsTok (lowerS ((some "Book time: https://provider.calendly.com/x").getD "")) "calendly" = true ∨
         containsTok (lowerS ((none : Option String).getD "")) "calendly" = true ∨
         containsTok (lowerS ((none : Option String).getD "")) "calendly" = true) :=
  is_calendly_event_iff
    { id := "e1", summary := some "Coffee chat",
      description := some "Book time: https://provider.calendly.com/x" }

/-! ### Helper lemmas about the embedded operations -/

theorem inMemAdd_id (em : String) (e : Event) : (inMemAdd em e).id = e.id := by
  cases h : e.attendees <;> simp [inMemAdd, h]

theorem inMemAdd_some (em : String) (e : Event) (l : List Attendee)
    (h : e.attendees = some l) :
    inMemAdd em e = { e with attendees := some (l ++ [⟨em, "accepted"⟩]) } := by
  simp [inMemAdd, h]

theorem inMemAdd_none (em : String) (e : Event) (h : e.attendees = none) :
    inMemAdd em e = e := by
  simp [inMemAdd, h]

theorem is_calendly_event_update_attendees (e : Event) (x : Option (List Attendee)) :
    is_calendly_event { e with attendees := x } = is_calendly_event e := rfl

theorem is_calendly_event_inMemAdd (em : String) (e : Event) :
    is_calendly_event (inMemAdd em e) = is_calendly_event e := by
  cases h : e.attendees with
  | none => rw [inMemAdd_none em e h]
  | some l => rw [inMemAdd_some em e l h, is_calendly_event_update_attendees]

theorem has_email_inMemAdd_self (e : Event) (l : List Attendee) (em : String)
    (h : e.attendees = some l) :
    has_email_as_guest (inMemAdd em e) em = true := by
  simp [inMemAdd, h, has_email_as_guest]

theorem has_email_mono (e : Event) (em em2 : String)
    (h : has_email_as_guest e em = true) :
    has_email_as_guest (inMemAdd em2 e) em = true := by
  cases ha : e.attendees with
  | none => rw [inMemAdd_none em2 e ha]; exact h
  | some l =>
    rw [inMemAdd_some em2 e l ha]
    simp only [has_email_as_guest, ha, Option.getD_some] at h
    simp [has_email_as_guest, h]

theorem mem_idxWhere {p : Event → Bool} {events : List Event} {i : Nat} :
    i ∈ idxWhere p events ↔ ∃ e, events[i]? = some e ∧ p e = true := by
  unfold idxWhere
  rw [List.mem_filter, List.mem_range]
  cases he : events[i]? with
  | none =>
    simp only [he]
    constructor
    · rintro ⟨-, hfalse⟩
      exact absurd hfalse (by simp)
    · rintro ⟨e, he2, -⟩
      cases he2
  | some e =>
    have hi : i < events.length := by
      rcases List.getElem?_eq_some_iff.mp he with ⟨h, -⟩
      exact h
    simp only [he]
    constructor
    · rintro ⟨-, hp⟩
      exact ⟨e, rfl, hp⟩
    · rintro ⟨e2, he2, hp⟩
      cases he2
      exact ⟨hi, hp⟩

theorem nodup_idxWhere (p : Event → Bool) (events : List Event) :
    (idxWhere p events).Nodup :=
  (List.nodup_range events.length).filter _

theorem idxWhere_lt {p : Event → Bool} {events : List Event} {i : Nat}
    (h : i ∈ idxWhere p events) : i < events.length :=
  List.mem_range.mp (List.mem_filter.mp h).1

theorem mem_toUpdateIdx {events : List Event} {em : String} {i : Nat} :
    i ∈ toUpdateIdx events em ↔
      ∃ e, events[i]? = some e ∧ is_calendly_event e = true ∧
        has_email_as_guest e em = false := by
  unfold toUpdateIdx
  rw [mem_idxWhere]
  constructor
  · rintro ⟨e, he, hp⟩
    rw [Bool.and_eq_true, Bool.not_eq_true'] at hp
    exact ⟨e, he, hp.1, hp.2⟩
  · rintro ⟨e, he, h1, h2⟩
    exact ⟨e, he, by rw [Bool.and_eq_true, Bool.not_eq_true']; exact ⟨h1, h2⟩⟩

theorem updatePass_state_length (ok : String → String → Bool) (em : String)
    (idxs : List Nat) : ∀ st : List Event,
    (updatePass ok em st idxs).state.length = st.length := by
  induction idxs with
  | nil => intro st; rfl
  | cons i is ih =>
    intro st
    cases he : st[i]? with
    | none => simp only [updatePass, he]; exact ih st
    | some e =>
      simp only [updatePass, he]
      rw [ih (st.set i (add_email_as_guest ok e em).1)]
      exact List.length_set st i _

theorem updatePass_state_getElem (ok : String → String → Bool) (em : String)
    (idxs : List Nat) : ∀ st : List Event, idxs.Nodup →
    (∀ k ∈ idxs, k < st.length) → ∀ j : Nat,
    (updatePass ok em st idxs).state[j]? =
      if j ∈ idxs then (st[j]?).map (inMemAdd em) else st[j]? := by
  induction idxs with
  | nil => intro st _ _ j; simp [updatePass]
  | cons i is ih =>
    intro st hnd hv j
    have hi : i < st.length := hv i (List.mem_cons_self i is)
    have he : st[i]? = some st[i] := List.getElem?_eq_getElem hi
    rw [List.nodup_cons] at hnd
    simp only [updatePass, he, add_email_as_guest]
    rw [ih (st.set i (inMemAdd em st[i])) hnd.2
      (fun k hk => by
        rw [List.length_set]
        exact hv k (List.mem_cons_of_mem i hk)) j]
    by_cases hji : j = i
    · subst hji
      have hnotin : j ∉ is := hnd.1
      simp only [hnotin, if_false, List.mem_cons, or_false, if_true, eq_self_iff_true,
        List.getElem?_set_self hi, he, Option.map_some', if_pos rfl]
    · have hset : (st.set i (inMemAdd em st[i]))[j]? = st[j]? :=
        List.getElem?_set_ne (fun h => hji h.symm)
      rw [hset]
      have hmem : (j ∈ i :: is) ↔ (j ∈ is) := by
        rw [List.mem_cons]
        exact or_iff_right hji
      simp only [hmem]

theorem updatePass_patches_eq (ok : String → String → Bool) (em : String)
    (idxs : List Nat) : ∀ st : List Event, idxs.Nodup →
    (updatePass ok em st idxs).patches =
      idxs.filterMap (fun i => (st[i]?).map (fun e => mkPatch ok e em)) := by
  induction idxs with
  | nil => intro st _; simp [updatePass]
  | cons i is ih =>
    intro st hnd
    rw [List.nodup_cons] at hnd
    cases he : st[i]? with
    | none =>
      simp only [updatePass, he]
      rw [ih st hnd.2, List.filterMap_cons]
      simp [he]
    | some e =>
      simp only [updatePass, he, add_email_as_guest]
      rw [ih (st.set i (inMemAdd em e)) hnd.2, List.filterMap_cons]
      simp only [he, Option.map_some']
      congr 1
      apply List.filterMap_congr
      intro k hk
      have hset : (st.set i (inMemAdd em e))[k]? = st[k]? :=
        List.getElem?_set_ne (fun h => hnd.1 (by rw [h]; exact hk))
      rw [hset]

theorem updatePass_patches_mem (ok : String → String → Bool) (em : String)
    (idxs : List Nat) : ∀ (st : List Event) (p : Patch),
    p ∈ (updatePass ok em st idxs).patches →
      p.email = em ∧ p.success = ok p.eventId p.email := by
  induction idxs with
  | nil => intro st p hp; simp [updatePass] at hp
  | cons i is ih =>
    intro st p hp
    cases he : st[i]? with
    | none =>
      simp only [updatePass, he] at hp
      exact ih st p hp
    | some e =>
      simp only [updatePass, he, add_email_as_guest] at hp
      rcases List.mem_cons.mp hp with h | h
      · subst h
        exact ⟨rfl, rfl⟩
      · exact ih _ p h

theorem updatePass_ok_independent (ok ok2 : String → String → Bool) (em : String)
    (idxs : List Nat) : ∀ st : List Event,
    (updatePass ok em st idxs).state = (updatePass ok2 em st idxs).state ∧
    (updatePass ok em st idxs).patches.map dropSuccess =
      (updatePass ok2 em st idxs).patches.map dropSuccess := by
  induction idxs with
  | nil => intro st; exact ⟨rfl, rfl⟩
  | cons i is ih =>
    intro st
    cases he : st[i]? with
    | none =>
      simp only [updatePass, he]
      exact ih st
    | some e =>
      simp only [updatePass, he, add_email_as_guest]
      refine ⟨(ih _).1, ?_⟩
      simp only [List.map_cons]
      rw [(ih _).2]
      rfl

/-! ### Claim theorems -/

/-- C4. The partial-update body submitted by `add_email_as_guest` carries
only the attendee list: every other field of the payload is absent, so
applying the patch to any remote record leaves its id, title, times,
location and description unchanged. -/
theorem patch_payload_only_attendees (ok : String → String → Bool) (e : Event)
    (em : String) (remote : Event) :
    ((add_email_as_guest ok e em).2.payload.summary = none ∧
     (add_email_as_guest ok e em).2.payload.description = none ∧
     (add_email_as_guest ok e em).2.payload.location = none ∧
     (add_email_as_guest ok e em).2.payload.organizerEmail = none ∧
     (add_email_as_guest ok e em).2.payload.sourceTitle = none ∧
     (add_email_as_guest ok e em).2.payload.startTime = none ∧
     (add_email_as_guest ok e em).2.payload.endTime = none) ∧
    (add_email_as_guest ok e em).2.payload.attendees =
      some (e.attendees.getD [] ++ [⟨em, "accepted"⟩]) ∧
    ((applyPatch remote (add_email_as_guest ok e em).2.payload).id = remote.id ∧
     (applyPatch remote (add_email_as_guest ok e em).2.payload).summary = remote.summary ∧
     (applyPatch remote (add_email_as_guest ok e em).2.payload).description = remote.description ∧
     (applyPatch remote (add_email_as_guest ok e em).2.payload).location = remote.location ∧
     (applyPatch remote (add_email_as_guest ok e em).2.payload).startTime = remote.startTime ∧
     (applyPatch remote (add_email_as_guest ok e em).2.payload).endTime = remote.endTime) := by
  simp [add_email_as_guest, mkPatch, applyPatch, ovr]

/-- C6. `missingTargets` is an order-preserving sublist of the target list
containing exactly the targets whose email is not yet case-insensitively
present among the event's attendees. -/
theorem missingTargets_ordered_absent (e : Event) (targets : List String) :
    (missingTargets e targets).Sublist targets ∧
    ∀ t, t ∈ missingTargets e targets ↔
      (t ∈ targets ∧ ∀ a ∈ e.attendees.getD [], ¬(lowerS a.email = lowerS t)) := by
  constructor
  · exact List.filter_sublist targets
  · intro t
    simp only [missingTargets, List.mem_filter, Bool.not_eq_true',
      has_email_as_guest]
    rw [← Bool.not_eq_true ((e.attendees.getD []).any _), List.any_eq_true]
    simp [beq_iff_eq]

/-- C6 witness: the spec scenario — `b@x.com` already attends, so only
`c@y.com` is missing; at the concrete instance the characterisation holds. -/
theorem missingTargets_ordered_absent_witness :
    (missingTargets
        { id := "e9", attendees := some [⟨"B@X.com", "accepted"⟩] }
        ["b@x.com", "c@y.com"]).Sublist ["b@x.com", "c@y.com"] ∧
    ∀ t, t ∈ missingTargets
        { id := "e9", attendees := some [⟨"B@X.com", "accepted"⟩] }
        ["b@x.com", "c@y.com"] ↔
      (t ∈ ["b@x.com", "c@y.com"] ∧
        ∀ a ∈ (Event.attendees
            { id := "e9", attendees := some [⟨"B@X.com", "accepted"⟩] }).getD [],
          ¬(lowerS a.email = lowerS t)) :=
  missingTargets_ordered_absent
    { id := "e9", attendees := some [⟨"B@X.com", "accepted"⟩] }
    ["b@x.com", "c@y.com"]

/-- C9. When the fetched record's attendee list is present,
`add_email_as_guest` appends the new entry to the record itself before the
patch is issued, and the append survives the call whether or not the remote
patch succeeds: the returned record contains the email, an in-memory
membership check finds it, and the submitted body is exactly the mutated
in-memory list. -/
theorem add_email_mutates_in_memory (ok : String → String → Bool) (e : Event)
    (l : List Attendee) (em : String) (h : e.attendees = some l) :
    (add_email_as_guest ok e em).1.attendees = some (l ++ [⟨em, "accepted"⟩]) ∧
    Attendee.mk em "accepted" ∈ ((add_email_as_guest ok e em).1.attendees.getD []) ∧
    has_email_as_guest (add_email_as_guest ok e em).1 em = true ∧
    (add_email_as_guest ok e em).2.payload.attendees =
      some ((add_email_as_guest ok e em).1.attendees.getD []) := by
  refine ⟨?_, ?_, ?_, ?_⟩
  · simp [add_email_as_guest, inMemAdd, h]
  · simp [add_email_as_guest, inMemAdd, h]
  · exact has_email_inMemAdd_self e l em h
  · simp [add_email_as_guest, inMemAdd, mkPatch, h]

/-- C9 witness: on an event with a present (singleton) attendee list and a
failing remote, the in-memory record still contains the added email. -/
theorem add_email_mutates_in_memory_witness :
    (add_email_as_guest okNone evWithAtt "a@x.com").1.attendees =
      some ([⟨"z@q.com", "needsAction"⟩] ++ [⟨"a@x.com", "accepted"⟩]) ∧
    Attendee.mk "a@x.com" "accepted" ∈
      ((add_email_as_guest okNone evWithAtt "a@x.com").1.attendees.getD []) ∧
    has_email_as_guest (add_email_as_guest okNone evWithAtt "a@x.com").1 "a@x.com" = true ∧
    (add_email_as_guest okNone evWithAtt "a@x.com").2.payload.attendees =
      some ((add_email_as_guest okNone evWithAtt "a@x.com").1.attendees.getD []) :=
  add_email_mutates_in_memory okNone evWithAtt [⟨"z@q.com", "needsAction"⟩]
    "a@x.com" rfl

/-- C10. Classification never reads the attendee list: two records agreeing
on summary, description, location, organizer email and source title are
classified identically, and adding a guest in memory never changes an
event's classification. -/
theorem classification_ignores_attendees (e1 e2 : Event)
    (ok : String → String → Bool) (em : String)
    (h1 : e1.summary = e2.summary) (h2 : e1.description = e2.description)
    (h3 : e1.location = e2.location) (h4 : e1.organizerEmail = e2.organizerEmail)
    (h5 : e1.sourceTitle = e2.sourceTitle) :
    is_calendly_event e1 = is_calendly_event e2 ∧
    is_calendly_event (add_email_as_guest ok e1 em).1 = is_calendly_event e1 := by
  constructor
  · simp only [is_calendly_event, h1, h2, h3, h4, h5]
  · exact is_calendly_event_inMemAdd em e1

/-- C10 witness: two concrete records differing only in attendees classify
identically, and adding a guest preserves the classification. -/
theorem classification_ignores_attendees_witness :
    is_calendly_event { id := "e1", summary := some "calendly chat" } =
      is_calendly_event
        { id := "e7", summary := some "calendly chat",
          attendees := some [⟨"x@y.com", "accepted"⟩] } ∧
    is_calendly_event
        (add_email_as_guest okAll { id := "e1", summary := some "calendly chat" } "a@x.com").1 =
      is_calendly_event { id := "e1", summary := some "calendly chat" } :=
  classification_ignores_attendees
    { id := "e1", summary := some "calendly chat" }
    { id := "e7", summary := some "calendly chat",
      attendees := some [⟨"x@y.com", "accepted"⟩] }
    okAll "a@x.com" rfl rfl rfl rfl rfl

/-- C3 counterexample: with `PRIMARY_EMAIL` unset the run does exit 1 with a
configuration error, but only after the credential-acquisition call has been
issued — the claim's "before any remote call (credential acquisition, ...)"
is false of the code, which validates configuration after
`_get_credentials()` and `build(...)`. -/
theorem config_after_credentials_counterexample :
    (runScript none (some "s@x.com") none okAll (Except.ok [])).exitCode = 1 ∧
    Op.getCredentials ∈ (runScript none (some "s@x.com") none okAll (Except.ok [])).trace := by
  decide

/-- C3 amended: a run missing the primary identity or the first target email
terminates with a configuration error and exit code 1 before any calendar
call (listing, event fetch, or patch) — though after credential acquisition
and service construction, whose two operations are all the run issues. -/
theorem config_error_aborts_before_calendar_calls
    (primary secondary tertiary : Option String) (ok : String → String → Bool)
    (fetch : Except String (List Event))
    (h : primary.getD "" = "" ∨ secondary.getD "" = "") :
    (runScript primary secondary tertiary ok fetch).exitCode = 1 ∧
    (runScript primary secondary tertiary ok fetch).trace =
      [Op.getCredentials, Op.buildService] := by
  rcases h with h | h
  · simp [runScript, h]
  · by_cases hp : primary.getD "" = ""
    · simp [runScript, hp]
    · simp [runScript, hp, h]

/-- C3 witness: at a concrete unset primary identity the amended behaviour
holds. -/
theorem config_error_aborts_before_calendar_calls_witness :
    (runScript none none none okAll (Except.ok [evNoAtt])).exitCode = 1 ∧
    (runScript none none none okAll (Except.ok [evNoAtt])).trace =
      [Op.getCredentials, Op.buildService] :=
  config_error_aborts_before_calendar_calls none none none okAll
    (Except.ok [evNoAtt]) (Or.inl rfl)

/-- C8. A listing failure makes the fetch return the empty sequence rather
than aborting, and any run whose fetch yields zero events classifies
nothing, issues no patch call, and exits 0. -/
theorem empty_fetch_clean_run (primary secondary tertiary : Option String)
    (ok : String → String → Bool) (err : String)
    (fetch : Except String (List Event))
    (hp : ¬primary.getD "" = "") (hs : ¬secondary.getD "" = "")
    (hf : get_recent_events fetch = []) :
    get_recent_events (Except.error err : Except String (List Event)) = [] ∧
    (runScript primary secondary tertiary ok fetch).exitCode = 0 ∧
    (runScript primary secondary tertiary ok fetch).result.patches = [] ∧
    (runScript primary secondary tertiary ok fetch).result.numCalendly = 0 := by
  refine ⟨rfl, ?_⟩
  simp only [runScript, hp, hs, if_false, hf, if_neg hp, if_neg hs]
  simp [process_calendly_events]

/-- C8 witness: a concrete run whose listing raised `HttpError`. -/
theorem empty_fetch_clean_run_witness :
    get_recent_events (Except.error "boom" : Except String (List Event)) = [] ∧
    (runScript (some "p@x.com") (some "s@x.com") none okAll
        (Except.error "boom")).exitCode = 0 ∧
    (runScript (some "p@x.com") (some "s@x.com") none okAll
        (Except.error "boom")).result.patches = [] ∧
    (runScript (some "p@x.com") (some "s@x.com") none okAll
        (Except.error "boom")).result.numCalendly = 0 :=
  empty_fetch_clean_run (some "p@x.com") (some "s@x.com") none okAll "boom"
    (Except.error "boom") (by decide) (by decide) rfl

theorem toUpdateIdx_nodup (events : List Event) (em : String) :
    (toUpdateIdx events em).Nodup :=
  nodup_idxWhere _ events

theorem toUpdateIdx_lt {events : List Event} {em : String} {i : Nat}
    (h : i ∈ toUpdateIdx events em) : i < events.length :=
  idxWhere_lt h

theorem process_patches_def (ok : String → String → Bool) (events : List Event)
    (sec ter : String) (h : events ≠ []) :
    (process_calendly_events ok events sec ter).patches =
      (updatePass ok sec events (toUpdateIdx events sec)).patches ++
      (updatePass ok ter (updatePass ok sec events (toUpdateIdx events sec)).state
        (toUpdateIdx events ter)).patches := by
  obtain ⟨a, l, rfl⟩ := List.exists_cons_of_ne_nil h
  rfl

theorem inMemAdd_getD (em : String) (e : Event) :
    ∃ t, (inMemAdd em e).attendees.getD [] = e.attendees.getD [] ++ t ∧
      ∀ a ∈ t, a.responseStatus = "accepted" := by
  cases h : e.attendees with
  | none =>
    refine ⟨[], ?_, by simp⟩
    rw [inMemAdd_none em e h, List.append_nil, h]
  | some l =>
    refine ⟨[⟨em, "accepted"⟩], ?_, by simp⟩
    rw [inMemAdd_some em e l h]
    simp [h]

/-- C2 counterexample: on an event fetched without an `attendees` key, one
run adding two target emails issues a second patch that has lost the first
added email — its submitted list carries only the second entry, so the
claim's "the second patch still contains the first added email" fails. -/
theorem second_patch_drops_first_email_counterexample :
    ((process_calendly_events okAll [evNoAtt] "a@x.com" "b@y.com").patches.map
        (fun p => (p.email, p.payload.attendees))) =
      [("a@x.com", some [⟨"a@x.com", "accepted"⟩]),
       ("b@y.com", some [⟨"b@y.com", "accepted"⟩])] ∧
    ((process_calendly_events okAll [evNoAtt] "a@x.com" "b@y.com").patches.map
        (fun p => ((p.payload.attendees.getD []).map Attendee.email).contains "a@x.com")) =
      [true, false] := by
  constructor <;> decide

/-- C2 amended: every submitted attendee list is the event's fetch-time
attendee list, unchanged and in order, followed only by appended
`accepted` entries; and when two target emails are added to one event in a
run, the second patch still contains the first added email **provided the
event's attendee list field was present at fetch time** (an event fetched
without an `attendees` key loses the first email from the second patch, as
the counterexample shows). -/
theorem patch_bodies_append_only (ok : String → String → Bool)
    (events : List Event) (sec ter : String) :
    (∀ p ∈ (process_calendly_events ok events sec ter).patches,
      ∃ (i : Nat) (e : Event), events[i]? = some e ∧ p.eventId = e.id ∧
        ∃ tail : List Attendee,
          p.payload.attendees = some (e.attendees.getD [] ++ tail) ∧
          tail ≠ [] ∧ ∀ a ∈ tail, a.responseStatus = "accepted") ∧
    (∀ (i : Nat) (e : Event) (l : List Attendee),
      events[i]? = some e → e.attendees = some l →
      is_calendly_event e = true → has_email_as_guest e sec = false →
      has_email_as_guest e ter = false →
      ∃ p ∈ (process_calendly_events ok events sec ter).patches,
        p.eventId = e.id ∧ p.email = ter ∧
          Attendee.mk sec "accepted" ∈ p.payload.attendees.getD []) := by
  by_cases hnil : events = []
  · subst hnil
    constructor
    · intro p hp
      simp [process_calendly_events] at hp
    · intro i e l he
      simp at he
  · have hsecN := toUpdateIdx_nodup events sec
    have hterN := toUpdateIdx_nodup events ter
    have hps1 := updatePass_patches_eq ok sec (toUpdateIdx events sec) events hsecN
    have hps2 := updatePass_patches_eq ok ter (toUpdateIdx events ter)
      (updatePass ok sec events (toUpdateIdx events sec)).state hterN
    have hst1 := updatePass_state_getElem ok sec (toUpdateIdx events sec) events
      hsecN (fun k hk => toUpdateIdx_lt hk)
    constructor
    · intro p hp
      rw [process_patches_def ok events sec ter hnil, List.mem_append] at hp
      rcases hp with hp | hp
      · rw [hps1] at hp
        rcases List.mem_filterMap.mp hp with ⟨i, -, hfi⟩
        cases he : events[i]? with
        | none => rw [he] at hfi; simp at hfi
        | some e =>
          rw [he, Option.map_some'] at hfi
          obtain rfl : mkPatch ok e sec = p := Option.some.inj hfi
          refine ⟨i, e, he, rfl, [⟨sec, "accepted"⟩], rfl, by simp, by simp⟩
      · rw [hps2] at hp
        rcases List.mem_filterMap.mp hp with ⟨i, -, hfi⟩
        cases he2 : (updatePass ok sec events (toUpdateIdx events sec)).state[i]? with
        | none => rw [he2] at hfi; simp at hfi
        | some e2 =>
          rw [he2, Option.map_some'] at hfi
          obtain rfl : mkPatch ok e2 ter = p := Option.some.inj hfi
          rw [hst1 i] at he2
          by_cases hmem : i ∈ toUpdateIdx events sec
          · rw [if_pos hmem] at he2
            rcases Option.map_eq_some'.mp he2 with ⟨e, he, hee⟩
            subst hee
            rcases inMemAdd_getD sec e with ⟨t0, ht0, ht0acc⟩
            refine ⟨i, e, he, inMemAdd_id sec e, t0 ++ [⟨ter, "accepted"⟩], ?_, by simp, ?_⟩
            · simp [mkPatch, ht0]
            · intro a ha
              rcases List.mem_append.mp ha with ha | ha
              · exact ht0acc a ha
              · simp at ha
                subst ha
                rfl
          · rw [if_neg hmem] at he2
            exact ⟨i, e2, he2, rfl, [⟨ter, "accepted"⟩], rfl, by simp, by simp⟩
    · intro i e l he hatt hcal hsec hter
      have hiS : i ∈ toUpdateIdx events sec :=
        mem_toUpdateIdx.mpr ⟨e, he, hcal, hsec⟩
      have hiT : i ∈ toUpdateIdx events ter :=
        mem_toUpdateIdx.mpr ⟨e, he, hcal, hter⟩
      have hst1i : (updatePass ok sec events (toUpdateIdx events sec)).state[i]? =
          some (inMemAdd sec e) := by
        rw [hst1 i, if_pos hiS, he]
        rfl
      refine ⟨mkPatch ok (inMemAdd sec e) ter, ?_, inMemAdd_id sec e, rfl, ?_⟩
      · rw [process_patches_def ok events sec ter hnil, List.mem_append]
        right
        rw [hps2]
        exact List.mem_filterMap.mpr ⟨i, hiT, by rw [hst1i]; rfl⟩
      · rw [inMemAdd_some sec e l hatt]
        simp [mkPatch, hatt]

/-- C2 witness: on an event fetched **with** an attendee list, the second
patch of the run contains the first added email. -/
theorem patch_bodies_append_only_witness :
    ∃ p ∈ (process_calendly_events okAll [evWithAtt] "a@x.com" "b@y.com").patches,
      p.eventId = evWithAtt.id ∧ p.email = "b@y.com" ∧
        Attendee.mk "a@x.com" "accepted" ∈ p.payload.attendees.getD [] :=
  (patch_bodies_append_only okAll [evWithAtt] "a@x.com" "b@y.com").2
    0 evWithAtt [⟨"z@q.com", "needsAction"⟩] rfl rfl (by decide) (by decide)
    (by decide)

/-- C7. Per-pair failures are isolated: the sequence of attempted patch
calls — target event, email and submitted body — is the same whatever the
remote success oracle, so one pair's failure never suppresses any other
pair's attempt; each patch's failure is exactly the remote's verdict on
that (event, email) pair; and update failures leave the exit code 0. -/
theorem update_failures_isolated (ok ok2 : String → String → Bool)
    (events : List Event) (sec ter : String)
    (primary secondary tertiary : Option String)
    (fetch : Except String (List Event))
    (hp : ¬primary.getD "" = "") (hs : ¬secondary.getD "" = "") :
    ((process_calendly_events ok events sec ter).patches.map dropSuccess =
      (process_calendly_events ok2 events sec ter).patches.map dropSuccess) ∧
    (∀ p ∈ (process_calendly_events ok events sec ter).patches,
      p.success = ok p.eventId p.email) ∧
    (runScript primary secondary tertiary ok fetch).exitCode = 0 := by
  refine ⟨?_, ?_, ?_⟩
  · by_cases hnil : events = []
    · subst hnil
      simp [process_calendly_events]
    · rw [process_patches_def ok events sec ter hnil,
        process_patches_def ok2 events sec ter hnil, List.map_append,
        List.map_append]
      have h1 := updatePass_ok_independent ok ok2 sec (toUpdateIdx events sec) events
      rw [h1.2, h1.1]
      have h2 := updatePass_ok_independent ok ok2 ter (toUpdateIdx events ter)
        (updatePass ok2 sec events (toUpdateIdx events sec)).state
      rw [h2.2]
  · intro p hp2
    by_cases hnil : events = []
    · subst hnil
      simp [process_calendly_events] at hp2
    · rw [process_patches_def ok events sec ter hnil, List.mem_append] at hp2
      rcases hp2 with hp2 | hp2
      · exact (updatePass_patches_mem ok sec (toUpdateIdx events sec) events p hp2).2
      · exact (updatePass_patches_mem ok ter (toUpdateIdx events ter) _ p hp2).2
  · simp [runScript, hp, hs]

/-- C7 witness: with a remote that rejects exactly the secondary email on
one event, both pairs are still attempted (same attempts as the all-success
run) and the process exits 0. -/
theorem update_failures_isolated_witness :
    ((process_calendly_events (fun _ em => !(em == "a@x.com")) [evWithAtt]
        "a@x.com" "b@y.com").patches.map dropSuccess =
      (process_calendly_events okAll [evWithAtt] "a@x.com" "b@y.com").patches.map
        dropSuccess) ∧
    (∀ p ∈ (process_calendly_events (fun _ em => !(em == "a@x.com")) [evWithAtt]
        "a@x.com" "b@y.com").patches,
      p.success = (fun _ em => !(em == "a@x.com")) p.eventId p.email) ∧
    (runScript (some "p@x.com") (some "a@x.com") (some "b@y.com")
        (fun _ em => !(em == "a@x.com")) (Except.ok [evWithAtt])).exitCode = 0 :=
  update_failures_isolated (fun _ em => !(em == "a@x.com")) okAll [evWithAtt]
    "a@x.com" "b@y.com" (some "p@x.com") (some "a@x.com") (some "b@y.com")
    (Except.ok [evWithAtt]) (by decide) (by decide)

theorem filterMap_patch_filter (em : String) (st : List Event) (i : Nat)
    (ei : Event) (tid : String) (he : st[i]? = some ei) (hid : ei.id = tid)
    (hinj : ∀ (j : Nat) (e2 : Event), st[j]? = some e2 → e2.id = tid → j = i) :
    ∀ L : List Nat, L.Nodup →
    ((L.filterMap (fun j => (st[j]?).map (fun x => mkPatch okAll x em))).filter
        (fun p => p.eventId == tid && p.success)) =
      (if i ∈ L then [mkPatch okAll ei em] else []) := by
  intro L
  induction L with
  | nil => intro _; simp
  | cons j L ih =>
    intro hnd
    rw [List.nodup_cons] at hnd
    rw [List.filterMap_cons]
    cases hj : st[j]? with
    | none =>
      have hji : j ≠ i := by
        intro h
        rw [h, he] at hj
        cases hj
      simp only [Option.map_none']
      rw [ih hnd.2]
      have hmem : (i ∈ j :: L) = (i ∈ L) := by
        rw [List.mem_cons]
        exact propext (or_iff_right (fun h => hji h.symm))
      simp only [hmem]
    | some e2 =>
      simp only [Option.map_some']
      rw [List.filter_cons]
      by_cases hid2 : e2.id = tid
      · have hji : j = i := hinj j e2 hj hid2
        subst hji
        have he2 : e2 = ei := by
          rw [he] at hj
          exact (Option.some.inj hj).symm
        subst he2
        have hcond : ((mkPatch okAll e2 em).eventId == tid &&
            (mkPatch okAll e2 em).success) = true := by
          simp [mkPatch, okAll, hid2]
        rw [if_pos hcond, ih hnd.2, if_neg hnd.1,
          if_pos (List.mem_cons_self j L)]
      · have hji : j ≠ i := by
          intro h
          apply hid2
          rw [h, he] at hj
          rw [← Option.some.inj hj]
          exact hid
        have hcond : ((mkPatch okAll e2 em).eventId == tid &&
            (mkPatch okAll e2 em).success) = false := by
          simp [mkPatch, okAll, hid2]
        rw [if_neg (by rw [hcond]; exact Bool.false_ne_true), ih hnd.2]
        have hmem : (i ∈ j :: L) = (i ∈ L) := by
          rw [List.mem_cons]
          exact propext (or_iff_right (fun h => hji h.symm))
        simp only [hmem]

theorem run1_filter_patches (events : List Event) (sec ter : String)
    (hnil : events ≠ [])
    (hinj : ∀ (i j : Nat) (e e2 : Event), events[i]? = some e →
      events[j]? = some e2 → e.id = e2.id → i = j)
    (i : Nat) (e : Event) (he : events[i]? = some e) :
    ((process_calendly_events okAll events sec ter).patches.filter
        (fun p => p.eventId == e.id && p.success)) =
      (if i ∈ toUpdateIdx events sec then [mkPatch okAll e sec] else []) ++
      (if i ∈ toUpdateIdx events ter
        then [mkPatch okAll
          (if i ∈ toUpdateIdx events sec then inMemAdd sec e else e) ter]
        else []) := by
  have hsecN := toUpdateIdx_nodup events sec
  have hterN := toUpdateIdx_nodup events ter
  rw [process_patches_def okAll events sec ter hnil, List.filter_append,
    updatePass_patches_eq okAll sec (toUpdateIdx events sec) events hsecN,
    updatePass_patches_eq okAll ter (toUpdateIdx events ter) _ hterN]
  have hchar := updatePass_state_getElem okAll sec (toUpdateIdx events sec)
    events hsecN (fun k hk => toUpdateIdx_lt hk)
  congr 1
  · exact filterMap_patch_filter sec events i e e.id he rfl
      (fun j e2 hj hid2 => hinj j i e2 e hj he hid2)
      (toUpdateIdx events sec) hsecN
  · have hei : (updatePass okAll sec events (toUpdateIdx events sec)).state[i]? =
        some (if i ∈ toUpdateIdx events sec then inMemAdd sec e else e) := by
      by_cases hm : i ∈ toUpdateIdx events sec
      · rw [hchar i, if_pos hm, he, if_pos hm]
        rfl
      · rw [hchar i, if_neg hm, he, if_neg hm]
    have hid1 : (if i ∈ toUpdateIdx events sec then inMemAdd sec e else e).id = e.id := by
      by_cases hm : i ∈ toUpdateIdx events sec
      · rw [if_pos hm]
        exact inMemAdd_id sec e
      · rw [if_neg hm]
    exact filterMap_patch_filter ter
      (updatePass okAll sec events (toUpdateIdx events sec)).state i _ e.id hei hid1
      (fun j e2 hj hid2 => by
        rw [hchar j] at hj
        by_cases hm : j ∈ toUpdateIdx events sec
        · rw [if_pos hm] at hj
          rcases Option.map_eq_some'.mp hj with ⟨e0, he0, he0e⟩
          have : e0.id = e.id := by
            rw [← inMemAdd_id sec e0, he0e]
            exact hid2
          exact hinj j i e0 e he0 he this
        · rw [if_neg hm] at hj
          exact hinj j i e2 e hj he hid2)
      (toUpdateIdx events ter) hterN

theorem applyPatch_attendees_only (e : Event) (b : List Attendee) :
    applyPatch e { attendees := some b } = { e with attendees := some b } := rfl

theorem has_email_set (e : Event) (L : List Attendee) (em : String) :
    has_email_as_guest { e with attendees := some L } em =
      L.any (fun a => lowerS a.email == lowerS em) := rfl

theorem event_eta_attendees (e : Event) (l : List Attendee)
    (h : e.attendees = some l) : { e with attendees := some l } = e := by
  cases e
  simp_all

theorem remoteAfter_run1 (events : List Event) (sec ter : String)
    (hnil : events ≠ [])
    (hinj : ∀ (i j : Nat) (e e2 : Event), events[i]? = some e →
      events[j]? = some e2 → e.id = e2.id → i = j)
    (i : Nat) (e : Event) (he : events[i]? = some e)
    (l : List Attendee) (hAtt : e.attendees = some l) :
    remoteAfter e (process_calendly_events okAll events sec ter).patches =
      { e with attendees := some (if i ∈ toUpdateIdx events ter
            then (if i ∈ toUpdateIdx events sec
                then l ++ [⟨sec, "accepted"⟩] else l) ++ [⟨ter, "accepted"⟩]
            else (if i ∈ toUpdateIdx events sec
                then l ++ [⟨sec, "accepted"⟩] else l)) } := by
  unfold remoteAfter
  rw [run1_filter_patches events sec ter hnil hinj i e he]
  by_cases hS : i ∈ toUpdateIdx events sec <;>
    by_cases hT : i ∈ toUpdateIdx events ter
  · simp only [if_pos hS, if_pos hT, List.singleton_append, List.foldl_cons,
      List.foldl_nil]
    rw [show (mkPatch okAll e sec).payload =
        { attendees := some (l ++ [⟨sec, "accepted"⟩]) } by simp [mkPatch, hAtt]]
    rw [applyPatch_attendees_only]
    rw [show (mkPatch okAll (inMemAdd sec e) ter).payload =
        { attendees := some ((l ++ [⟨sec, "accepted"⟩]) ++ [⟨ter, "accepted"⟩]) } by
      rw [inMemAdd_some sec e l hAtt]; simp [mkPatch]]
    rw [applyPatch_attendees_only]
  · simp only [if_pos hS, if_neg hT, List.append_nil, List.foldl_cons,
      List.foldl_nil]
    rw [show (mkPatch okAll e sec).payload =
        { attendees := some (l ++ [⟨sec, "accepted"⟩]) } by simp [mkPatch, hAtt]]
    rw [applyPatch_attendees_only]
  · simp only [if_neg hS, if_pos hT, List.nil_append, List.foldl_cons,
      List.foldl_nil]
    rw [show (mkPatch okAll e ter).payload =
        { attendees := some (l ++ [⟨ter, "accepted"⟩]) } by simp [mkPatch, hAtt]]
    rw [applyPatch_attendees_only]
  · simp only [if_neg hS, if_neg hT, List.append_nil, List.foldl_nil]
    rw [event_eta_attendees e l hAtt]

/-- C5 amended: when every fetched event record carries an attendee list
and event ids are pairwise distinct, re-running the pipeline on the remote
state produced by a fully successful first run issues zero patch calls, and
every (event, email) pair patched in the first run is found already present
by the second run's membership check.  (Without the attendee-list proviso
this fails: see the counterexample, where the second run re-adds the first
email that the first run's second patch overwrote.) -/
theorem second_run_no_writes (events : List Event) (sec ter : String)
    (hatt : ∀ e ∈ events, e.attendees.isSome = true)
    (hids : (events.map Event.id).Nodup) :
    (process_calendly_events okAll
        (events.map (fun e =>
          remoteAfter e (process_calendly_events okAll events sec ter).patches))
        sec ter).patches = [] ∧
    (∀ p ∈ (process_calendly_events okAll events sec ter).patches,
      ∀ (j : Nat) (e2 : Event),
        (events.map (fun e =>
          remoteAfter e (process_calendly_events okAll events sec ter).patches))[j]? =
          some e2 →
        e2.id = p.eventId → has_email_as_guest e2 p.email = true) := by
  by_cases hnil : events = []
  · subst hnil
    constructor
    · simp [process_calendly_events]
    · intro p hp
      simp [process_calendly_events] at hp
  · have hinj : ∀ (i j : Nat) (e e2 : Event), events[i]? = some e →
        events[j]? = some e2 → e.id = e2.id → i = j := by
      intro i j e e2 hei hej hid
      rcases List.getElem?_eq_some_iff.mp hei with ⟨hi, -⟩
      rcases List.getElem?_eq_some_iff.mp hej with ⟨hj, -⟩
      rcases Nat.lt_trichotomy i j with hlt | heq | hlt
      · exfalso
        apply List.nodup_iff_getElem?_ne_getElem?.mp hids i j hlt
          (by rw [List.length_map]; exact hj)
        rw [List.getElem?_map, List.getElem?_map, hei, hej]
        simp [hid]
      · exact heq
      · exfalso
        apply List.nodup_iff_getElem?_ne_getElem?.mp hids j i hlt
          (by rw [List.length_map]; exact hi)
        rw [List.getElem?_map, List.getElem?_map, hei, hej]
        simp [hid]
    have hfacts : ∀ (i : Nat) (e : Event), events[i]? = some e →
        (remoteAfter e (process_calendly_events okAll events sec ter).patches).id = e.id ∧
        is_calendly_event
            (remoteAfter e (process_calendly_events okAll events sec ter).patches) =
          is_calendly_event e ∧
        (is_calendly_event e = true →
          has_email_as_guest
              (remoteAfter e (process_calendly_events okAll events sec ter).patches)
              sec = true ∧
          has_email_as_guest
              (remoteAfter e (process_calendly_events okAll events sec ter).patches)
              ter = true) := by
      intro i e he
      rcases Option.isSome_iff_exists.mp (hatt e (List.getElem?_mem he)) with ⟨l, hAtt⟩
      rw [remoteAfter_run1 events sec ter hnil hinj i e he l hAtt]
      refine ⟨rfl, is_calendly_event_update_attendees e _, ?_⟩
      intro hcal
      have hl : ∀ em, has_email_as_guest e em = true →
          l.any (fun a => lowerS a.email == lowerS em) = true := by
        intro em h
        rw [has_email_as_guest, hAtt] at h
        exact h
      constructor
      · rw [has_email_set]
        by_cases hs : has_email_as_guest e sec = true
        · have hla := hl sec hs
          by_cases hS : i ∈ toUpdateIdx events sec <;>
            by_cases hT : i ∈ toUpdateIdx events ter <;>
              simp [hS, hT, List.any_append, hla]
        · have hs2 : has_email_as_guest e sec = false := by
            revert hs
            cases has_email_as_guest e sec <;> simp
          have hS : i ∈ toUpdateIdx events sec :=
            mem_toUpdateIdx.mpr ⟨e, he, hcal, hs2⟩
          by_cases hT : i ∈ toUpdateIdx events ter <;>
            simp [hS, hT, List.any_append]
      · rw [has_email_set]
        by_cases hs : has_email_as_guest e ter = true
        · have hla := hl ter hs
          by_cases hS : i ∈ toUpdateIdx events sec <;>
            by_cases hT : i ∈ toUpdateIdx events ter <;>
              simp [hS, hT, List.any_append, hla]
        · have hs2 : has_email_as_guest e ter = false := by
            revert hs
            cases has_email_as_guest e ter <;> simp
          have hT : i ∈ toUpdateIdx events ter :=
            mem_toUpdateIdx.mpr ⟨e, he, hcal, hs2⟩
          by_cases hS : i ∈ toUpdateIdx events sec <;>
            simp [hS, hT, List.any_append]
    have hmapnil : events.map (fun e =>
        remoteAfter e (process_calendly_events okAll events sec ter).patches) ≠ [] := by
      intro hmap
      exact hnil (List.map_eq_nil_iff.mp hmap)
    have hTUgen : ∀ em : String,
        (∀ (k : Nat) (e : Event), events[k]? = some e → is_calendly_event e = true →
          has_email_as_guest
            (remoteAfter e (process_calendly_events okAll events sec ter).patches)
            em = true) →
        toUpdateIdx (events.map (fun e =>
          remoteAfter e (process_calendly_events okAll events sec ter).patches)) em = [] := by
      intro em hmem
      unfold toUpdateIdx idxWhere
      rw [List.filter_eq_nil_iff]
      intro k hk
      cases hke : (events.map (fun e =>
          remoteAfter e (process_calendly_events okAll events sec ter).patches))[k]? with
      | none => simp
      | some e2 =>
        have hke2 := hke
        rw [List.getElem?_map] at hke2
        rcases Option.map_eq_some'.mp hke2 with ⟨e, he, hee⟩
        subst hee
        intro hcontra
        rw [Bool.and_eq_true, Bool.not_eq_true'] at hcontra
        rcases hfacts k e he with ⟨-, hcal2, -⟩
        rw [hcal2] at hcontra
        have htrue := hmem k e he hcontra.1
        rw [htrue] at hcontra
        simp at hcontra
    constructor
    · rw [process_patches_def okAll _ sec ter hmapnil,
        hTUgen sec (fun k e he hc => ((hfacts k e he).2.2 hc).1),
        hTUgen ter (fun k e he hc => ((hfacts k e he).2.2 hc).2)]
      rfl
    · intro p hp j e2 hje2 hid2
      rw [List.getElem?_map] at hje2
      rcases Option.map_eq_some'.mp hje2 with ⟨ej, hej, hee⟩
      rcases hfacts j ej hej with ⟨hidj, -, hmemj⟩
      rw [process_patches_def okAll events sec ter hnil, List.mem_append] at hp
      rcases hp with hp | hp
      · rw [updatePass_patches_eq okAll sec (toUpdateIdx events sec) events
          (toUpdateIdx_nodup events sec)] at hp
        rcases List.mem_filterMap.mp hp with ⟨i0, hi0, hfi⟩
        cases he0 : events[i0]? with
        | none =>
          rw [he0] at hfi
          simp at hfi
        | some e0 =>
          rw [he0, Option.map_some'] at hfi
          obtain rfl := Option.some.inj hfi
          subst hee
          have hjid : ej.id = e0.id := by
            rw [← hidj]
            exact hid2
          have hj0 : j = i0 := hinj j i0 ej e0 hej he0 hjid
          subst hj0
          rw [hej] at he0
          obtain rfl := Option.some.inj he0
          rcases mem_toUpdateIdx.mp hi0 with ⟨e0', he0', hcal0, -⟩
          rw [hej] at he0'
          obtain rfl := Option.some.inj he0'
          exact (hmemj hcal0).1
      · rw [updatePass_patches_eq okAll ter (toUpdateIdx events ter) _
          (toUpdateIdx_nodup events ter)] at hp
        rcases List.mem_filterMap.mp hp with ⟨i0, hi0, hfi⟩
        have hchar := updatePass_state_getElem okAll sec (toUpdateIdx events sec)
          events (toUpdateIdx_nodup events sec) (fun k hk => toUpdateIdx_lt hk)
        cases he1 : (updatePass okAll sec events (toUpdateIdx events sec)).state[i0]? with
        | none =>
          rw [he1] at hfi
          simp at hfi
        | some e1 =>
          rw [he1, Option.map_some'] at hfi
          obtain rfl := Option.some.inj hfi
          subst hee
          rw [hchar i0] at he1
          by_cases hm : i0 ∈ toUpdateIdx events sec
          · rw [if_pos hm] at he1
            rcases Option.map_eq_some'.mp he1 with ⟨e0, he0, hee1⟩
            have hjid : ej.id = e0.id := by
              have h1 : (remoteAfter ej
                  (process_calendly_events okAll events sec ter).patches).id =
                  e1.id := hid2
              rw [hidj, ← hee1, inMemAdd_id] at h1
              exact h1
            have hj0 : j = i0 := hinj j i0 ej e0 hej he0 hjid
            subst hj0
            rw [hej] at he0
            obtain rfl := Option.some.inj he0
            rcases mem_toUpdateIdx.mp hi0 with ⟨e0', he0', hcal0, -⟩
            rw [hej] at he0'
            obtain rfl := Option.some.inj he0'
            exact (hmemj hcal0).2
          · rw [if_neg hm] at he1
            have hjid : ej.id = e1.id := by
              rw [← hidj]
              exact hid2
            have hj0 : j = i0 := hinj j i0 ej e1 hej he1 hjid
            subst hj0
            rw [hej] at he1
            obtain rfl := Option.some.inj he1
            rcases mem_toUpdateIdx.mp hi0 with ⟨e0', he0', hcal0, -⟩
            rw [hej] at he0'
            obtain rfl := Option.some.inj he0'
            exact (hmemj hcal0).2

/-- C5 counterexample: one Calendly event fetched without an `attendees`
key; the first run adds both target emails (both patches succeed), yet the
second run — fetching exactly the remote state those patches produced —
issues another patch re-adding the first email, because the first run's
second patch overwrote it.  The rerun is not write-free. -/
theorem second_run_patches_again_counterexample :
    ((process_calendly_events okAll
        ([evNoAtt].map (fun e =>
          remoteAfter e
            (process_calendly_events okAll [evNoAtt] "a@x.com" "b@y.com").patches))
        "a@x.com" "b@y.com").patches.map (fun p => (p.eventId, p.email))) =
      [("e1", "a@x.com")] := by
  decide

/-- C5 witness: with the attendee list present, the rerun issues no patch. -/
theorem second_run_no_writes_witness :
    (process_calendly_events okAll
        ([evWithAtt].map (fun e =>
          remoteAfter e
            (process_calendly_events okAll [evWithAtt] "a@x.com" "b@y.com").patches))
        "a@x.com" "b@y.com").patches = [] ∧
    (∀ p ∈ (process_calendly_events okAll [evWithAtt] "a@x.com" "b@y.com").patches,
      ∀ (j : Nat) (e2 : Event),
        ([evWithAtt].map (fun e =>
          remoteAfter e
            (process_calendly_events okAll [evWithAtt] "a@x.com" "b@y.com").patches))[j]? =
          some e2 →
        e2.id = p.eventId → has_email_as_guest e2 p.email = true) :=
  second_run_no_writes [evWithAtt] "a@x.com" "b@y.com" (by decide) (by decide)
